import Mathlib

/-!
Shallow embedding of the weekly-report conversion pipeline (src/app.py).

Cells read from a spreadsheet / PDF table are modelled as `Option String`:
`none` is a missing cell (pandas `NaN` / pdfplumber `None`), `some s` a text
cell.  Python's `str(cell)` on a missing pandas cell yields the string "nan";
all other values are treated as text, matching the spec's data model.
-/

namespace WeeklyReport

/-- Python `str(v)` on a cell, where a missing pandas cell prints as "nan". -/
def pyStr : Option String → String
  | none => "nan"
  | some s => s

def isWS (c : Char) : Bool := c.isWhitespace

/-- Python `str.strip()` on the character list of a string. -/
def stripL (l : List Char) : List Char :=
  ((l.dropWhile isWS).reverse.dropWhile isWS).reverse

/-- Python `str.strip()`. -/
def stripS (s : String) : String := String.mk (stripL s.data)

/-- Python `str.lower()` (ASCII range; the sentinels checked are ASCII or Korean). -/
def lowerL (l : List Char) : List Char := l.map Char.toLower

def isPrefixL : List Char → List Char → Bool
  | [], _ => true
  | _ :: _, [] => false
  | p :: ps, c :: cs => p == c && isPrefixL ps cs

/-- Python `pat in s` substring containment on character lists. -/
def containsL (pat : List Char) : List Char → Bool
  | [] => isPrefixL pat []
  | c :: cs => isPrefixL pat (c :: cs) || containsL pat cs

/--
One left-to-right non-overlapping replacement pass, as done by `re.sub` for the
patterns of `refine_text`, all of which are a literal `pre` followed by an
optional literal suffix out of `sufs` (greedy, alternatives tried in order);
`str.replace` is the case `sufs = []`.  The `Nat` argument counts characters of
a previous match still to be skipped, which keeps the recursion structural.
-/
def substA (pre : List Char) (sufs : List (List Char)) (rep : List Char) :
    Nat → List Char → List Char
  | _, [] => []
  | Nat.succ n, _ :: cs => substA pre sufs rep n cs
  | 0, c :: cs =>
    if isPrefixL pre (c :: cs) then
      let rest := List.drop pre.length (c :: cs)
      let sufLen : Nat :=
        match List.find? (fun suf => isPrefixL suf rest) sufs with
        | some suf => suf.length
        | none => 0
      rep ++ substA pre sufs rep (pre.length + sufLen - 1) cs
    else
      c :: substA pre sufs rep 0 cs

/-- `re.sub(pre(suf₁|suf₂|…)?, rep, s)` (and `str.replace` when `sufs = []`). -/
def pySub (pre : String) (sufs : List String) (rep : String) (l : List Char) : List Char :=
  substA pre.data (sufs.map String.data) rep.data 0 l

/-- The fixed phrase-canonicalization rules of `refine_text`, in source order. -/
def applyRules (l : List Char) : List Char :=
  let l1 := pySub " 진행 중" ["입니다"] " 진행" l
  let l2 := pySub " 완료" ["하였습니다", "했습니다"] " 완료" l1
  let l3 := pySub " 예정" ["입니다"] " 예정" l2
  let l4 := pySub " 팔로업" [] " F/U" l3
  pySub "팔로우업" [] " F/U" l4

/-- Python `line.replace(bullet, empty)`: removes every bullet glyph. -/
def removeBul (l : List Char) : List Char := l.filter (fun c => c != '•')

/-- The bullet prefix added to each surviving line. -/
def bulletL (l : List Char) : List Char := '•' :: ' ' :: l

/--
Per-line processing of `refine_text`: strip, drop bullet glyphs, strip again;
`none` when the line is then empty, otherwise the canonicalized line.
-/
def procLine (x : List Char) : Option (List Char) :=
  let l0 := stripL (removeBul (stripL x))
  if l0 = [] then none else some (applyRules l0)

/--
The dedup loop of `refine_text` over the split lines, carrying the `seen` set;
returns the surviving canonical lines (the bullet prefix is re-added by the
caller, so dedup is on the un-bulleted line exactly as the code's `seen` set).
-/
def refineAux : List (List Char) → List (List Char) → List (List Char)
  | [], _ => []
  | x :: xs, seen =>
    match procLine x with
    | none => refineAux xs seen
    | some l => if l ∈ seen then refineAux xs seen else l :: refineAux xs (l :: seen)

/-- Python `s.split(newline)`. -/
def splitNL : List Char → List (List Char)
  | [] => [[]]
  | c :: cs =>
    if c = '\n' then [] :: splitNL cs
    else
      match splitNL cs with
      | [] => [[c]]
      | p :: ps => (c :: p) :: ps

/-- Python `newline.join(ls)`. -/
def joinNL : List (List Char) → List Char
  | [] => []
  | [l] => l
  | l :: ls => l ++ '\n' :: joinNL ls

/-- src/app.py lines 35-51: text simplification and de-duplication. -/
def refine_text (t : String) : String :=
  if t = "" ∨ lowerL t.data = "nan".data ∨ t = "-" then "-"
  else
    let rl := refineAux (splitNL t.data) []
    if rl = [] then "-" else String.mk (joinNL (rl.map bulletL))

/--
Lexicographic order on character lists by code point — Python's string
comparison, which is what pandas uses both for `groupby`'s key sorting and for
`sort_values`.  (Executable stand-in for Mathlib's `String` order; the two are
proved equivalent below.)
-/
def lexLe : List Char → List Char → Bool
  | [], _ => true
  | _ :: _, [] => false
  | a :: as, b :: bs => if a = b then lexLe as bs else decide (a < b)

/-- Python `a <= b` on strings. -/
def strLe (a b : String) : Bool := lexLe a.data b.data

/-- A raw `[contributor, project, task]` triple appended by the extraction loops. -/
structure RawRecord where
  member : Option String
  project : Option String
  task : Option String
deriving DecidableEq

/--
src/app.py line 98: pandas `str.contains(markersRegex, case=False)` on the
project column — substring match of any of the three alternatives, ignoring
case.
-/
def sentinelProj (p : String) : Bool :=
  containsL "프로젝트".data (lowerL p.data) || containsL "팀원".data (lowerL p.data) ||
    containsL "nan".data (lowerL p.data)

/--
src/app.py lines 96-98: the record list after `summarize`'s cleaning — project
cast to `str` and stripped, rows whose project matches the marker regex
removed.  Each element is `(cleaned project, raw task cell)`.
-/
def cleanRecords (rows : List RawRecord) : List (String × Option String) :=
  (rows.map (fun r => (stripS (pyStr r.project), r.task))).filter
    (fun pt => !sentinelProj pt.1)

/-- Python `newline.join` over a list of strings. -/
def joinStrs (ls : List String) : String := String.mk (joinNL (ls.map String.data))

/-- The task cells of one project's group, in input order, as `str`-ed text. -/
def projTasks (filtered : List (String × Option String)) (p : String) : List String :=
  (filtered.filter (fun pt => decide (pt.1 = p))).map (fun pt => pyStr pt.2)

/--
src/app.py lines 94-100 (`summarize`): clean the records, group by project
(pandas `groupby` sorts the keys ascending), join each group's task texts with
newlines and refine them.  Result rows are `(project, refined text)`.
-/
def summarize (rows : List RawRecord) : List (String × String) :=
  let filtered := cleanRecords rows
  let keys := List.insertionSort (fun a b => strLe a b = true) (filtered.map Prod.fst).dedup
  keys.map (fun p => (p, refine_text (joinStrs (projTasks filtered p))))

/-- One row of the final consolidated table. -/
structure ConsolidatedRow where
  project : String
  thisText : String
  nextText : String
deriving DecidableEq

/-- First-match association lookup, the value a key contributes to the merge. -/
def lookupS (p : String) : List (String × String) → Option String
  | [] => none
  | (q, s) :: rest => if q = p then some s else lookupS p rest

/--
src/app.py lines 109-111: `pd.merge(how=outer)` on the project column followed
by `fillna(dash)` and `sort_values` — one row per project of either period,
missing side filled with the dash, sorted ascending by project name.  (Both
inputs come from `groupby`, so their keys are unique.)
-/
def mergeTables (resThis resNext : List (String × String)) : List ConsolidatedRow :=
  let keys := List.insertionSort (fun a b => strLe a b = true)
    ((resThis.map Prod.fst ++ resNext.map Prod.fst).dedup)
  keys.map (fun p =>
    ⟨p, (lookupS p resThis).getD "-", (lookupS p resNext).getD "-"⟩)

/-- Cell access `r[i]` on a possibly short row: missing when out of range. -/
def cellAt (r : List (Option String)) (i : Nat) : Option String := r.getD i none

/-- src/app.py line 89/91: `pd.notna(cell) and str(cell).strip() != empty`. -/
def cellOkE : Option String → Bool
  | none => false
  | some s => !(stripS s == "")

/-- Python truthiness of a pdfplumber cell: present and non-empty. -/
def cellTruthy : Option String → Bool
  | none => false
  | some s => !(s == "")

/-- src/app.py lines 88-90: this-week extraction from one Excel data row. -/
def extractThis (r : List (Option String)) : Option RawRecord :=
  if 3 ≤ r.length ∧ cellOkE (cellAt r 1) = true then
    some ⟨cellAt r 0, cellAt r 1, cellAt r 2⟩
  else none

/-- src/app.py lines 91-92: next-week extraction from one Excel data row. -/
def extractNext (r : List (Option String)) : Option RawRecord :=
  if 7 ≤ r.length ∧ cellOkE (cellAt r 5) = true then
    some ⟨cellAt r 4, cellAt r 5, cellAt r 6⟩
  else none

/-- src/app.py line 72: this-week extraction from one PDF data row. -/
def pdfExtractThis (r : List (Option String)) : Option RawRecord :=
  if 3 ≤ r.length ∧ cellTruthy (cellAt r 1) = true ∧ cellTruthy (cellAt r 2) = true then
    some ⟨cellAt r 0, cellAt r 1, cellAt r 2⟩
  else none

/-- src/app.py line 73: next-week extraction from one PDF data row. -/
def pdfExtractNext (r : List (Option String)) : Option RawRecord :=
  if 7 ≤ r.length ∧ cellTruthy (cellAt r 5) = true ∧ cellTruthy (cellAt r 6) = true then
    some ⟨cellAt r 4, cellAt r 5, cellAt r 6⟩
  else none

/--
src/app.py lines 78-81: an Excel row is the header row when some cell,
`str`-ed and stripped, equals one of the two marker labels (Python list
membership, i.e. exact equality).
-/
def rowIsHeaderExcel (row : List (Option String)) : Bool :=
  row.any (fun c => stripS (pyStr c) == "프로젝트" || stripS (pyStr c) == "팀원")

/-- src/app.py lines 77-81: index of the first Excel header row, if any. -/
def findHeaderExcel (grid : List (List (Option String))) : Option Nat :=
  grid.findIdx? rowIsHeaderExcel

/--
src/app.py lines 65-69: a PDF row is the header row when some truthy cell
contains one of the marker labels as a substring.
-/
def rowIsHeaderPdf (row : List (Option String)) : Bool :=
  row.any (fun c =>
    cellTruthy c &&
      (containsL "프로젝트".data (pyStr c).data || containsL "팀원".data (pyStr c).data))

/-- Index of the first PDF header row of one page's table, if any. -/
def findHeaderPdf (grid : List (List (Option String))) : Option Nat :=
  grid.findIdx? rowIsHeaderPdf

/-- The this-week raw records an Excel grid contributes (empty without a header). -/
def excelThis (grid : List (List (Option String))) : List RawRecord :=
  match findHeaderExcel grid with
  | none => []
  | some h => (grid.drop (h + 1)).filterMap extractThis

/-- The next-week raw records an Excel grid contributes (empty without a header). -/
def excelNext (grid : List (List (Option String))) : List RawRecord :=
  match findHeaderExcel grid with
  | none => []
  | some h => (grid.drop (h + 1)).filterMap extractNext

/--
Outcome of `process_report_data` (src/app.py lines 54-115): `headerNotFound`
is the `st.error` + `return None` path of lines 83-85, `emptyResult` the
`st.warning` + `return None` path of lines 105-107, and `table` the returned
consolidated table of line 111.
-/
inductive ProcessResult where
  | headerNotFound
  | emptyResult
  | table (rows : List ConsolidatedRow)
deriving DecidableEq

/-- src/app.py lines 76-111: the Excel branch of `process_report_data`. -/
def processExcel (grid : List (List (Option String))) : ProcessResult :=
  match findHeaderExcel grid with
  | none => ProcessResult.headerNotFound
  | some h =>
    let resThis := summarize ((grid.drop (h + 1)).filterMap extractThis)
    let resNext := summarize ((grid.drop (h + 1)).filterMap extractNext)
    if resThis = [] ∧ resNext = [] then ProcessResult.emptyResult
    else ProcessResult.table (mergeTables resThis resNext)

/-- src/app.py lines 70-72 applied to one PDF page: this-week records. -/
def pdfPageThis (g : List (List (Option String))) : List RawRecord :=
  match findHeaderPdf g with
  | none => []
  | some h => (g.drop (h + 1)).filterMap pdfExtractThis

/-- src/app.py lines 70-73 applied to one PDF page: next-week records. -/
def pdfPageNext (g : List (List (Option String))) : List RawRecord :=
  match findHeaderPdf g with
  | none => []
  | some h => (g.drop (h + 1)).filterMap pdfExtractNext

/-- Accumulation of this-week records over the PDF pages, in page order. -/
def pdfThis : List (List (List (Option String))) → List RawRecord
  | [] => []
  | g :: gs => pdfPageThis g ++ pdfThis gs

/-- Accumulation of next-week records over the PDF pages, in page order. -/
def pdfNext : List (List (List (Option String))) → List RawRecord
  | [] => []
  | g :: gs => pdfPageNext g ++ pdfNext gs

/--
src/app.py lines 58-73 and 102-111: the PDF branch of `process_report_data`.
A page whose table lacks the header markers is skipped (lines 70-73 only run
when a header was found on that page); there is no header-error path.
-/
def processPdf (pages : List (List (List (Option String)))) : ProcessResult :=
  let resThis := summarize (pdfThis pages)
  let resNext := summarize (pdfNext pages)
  if resThis = [] ∧ resNext = [] then ProcessResult.emptyResult
  else ProcessResult.table (mergeTables resThis resNext)

example : refine_text "작업 진행 중입니다" = "• 작업 진행" := by decide

example : refine_text "a\na\nb" = "• a\n• b" := by decide

example : refine_text "nan" = "-" := by decide

example : refine_text (refine_text "A 진행 중 중입니다") ≠ refine_text "A 진행 중 중입니다" := by decide

example :
    processExcel [[some "팀원", some "프로젝트", some "내용"],
      [some "A", some "P1", some "did X"]] =
    ProcessResult.table [⟨"P1", "• did X", "-"⟩] := by decide

example : processExcel [[some "팀원"]] = ProcessResult.emptyResult := by decide

example : processExcel [[some "x"]] = ProcessResult.headerNotFound := by decide

example : processPdf [[[some "x", some "y"]]] = ProcessResult.emptyResult := by decide

example : summarize [⟨some "A", some "P", none⟩] = [("P", "-")] := by decide

example : summarize [⟨some "A", some "P", some "none"⟩] = [("P", "• none")] := by decide

example :
    processExcel [[some "팀원", some "프로젝트", some "내용", some "", some "팀원", some "프로젝트", some "내용"],
      [some "A", some "P1", some "did X", some "", some "B", some "P1", some "will do Y"],
      [some "C", some "P2", some "did Z", some "", some "", some "", some ""]] =
    ProcessResult.table [⟨"P1", "• did X", "• will do Y"⟩, ⟨"P2", "• did Z", "-"⟩] := by decide

/-! The executable comparator agrees with Mathlib's order on `String`. -/

theorem not_list_lt_nil (l : List Char) : ¬ List.lt l [] := by
  intro h
  cases h

theorem lexLe_iff_not_lt : ∀ l₁ l₂ : List Char, lexLe l₁ l₂ = true ↔ ¬ List.lt l₂ l₁
  | [], l₂ => by
    simp only [lexLe, true_iff]
    exact not_list_lt_nil l₂
  | a :: as, [] => by
    simp only [lexLe, Bool.false_eq_true, false_iff, not_not]
    exact List.lt.nil a as
  | a :: as, b :: bs => by
    by_cases hab : a = b
    · subst hab
      have he : lexLe (a :: as) (a :: bs) = lexLe as bs := by
        simp [lexLe]
      rw [he, lexLe_iff_not_lt as bs]
      constructor
      · intro h hlt
        cases hlt with
        | head _ _ hlt' => exact absurd hlt' (lt_irrefl a)
        | tail _ _ hlt' => exact h hlt'
      · intro h hlt
        exact h (List.lt.tail (lt_irrefl a) (lt_irrefl a) hlt)
    · simp only [lexLe, if_neg hab]
      by_cases hlt : a < b
      · refine iff_of_true (by simp [hlt]) ?_
        intro h
        cases h with
        | head _ _ hba => exact absurd hlt (asymm hba)
        | tail h1 h2 _ => exact h2 hlt
      · have hba : b < a := (lt_or_gt_of_ne hab).resolve_left hlt
        refine iff_of_false (by simp [hlt]) ?_
        intro h
        exact h (List.lt.head bs as hba)

theorem strLe_iff {a b : String} : strLe a b = true ↔ a ≤ b := by
  rw [String.le_iff_toList_le, ← not_lt]
  constructor
  · intro h hlt
    exact (lexLe_iff_not_lt a.data b.data).mp h ((List.lt_iff_lex_lt _ _).mpr hlt)
  · intro h
    exact (lexLe_iff_not_lt a.data b.data).mpr fun hl => h ((List.lt_iff_lex_lt _ _).mp hl)

/-! Helper lemmas about the association lookup used by the period merger. -/

theorem lookupS_eq_none {p : String} :
    ∀ {l : List (String × String)}, p ∉ l.map Prod.fst → lookupS p l = none
  | [], _ => rfl
  | (q, s) :: rest, h => by
    have hq : ¬ q = p := by
      intro hqp
      exact h (by simp [hqp])
    have hrest : p ∉ rest.map Prod.fst := by
      intro hmem
      exact h (by simp [hmem])
    simp [lookupS, hq, lookupS_eq_none hrest]

theorem lookupS_of_mem {p s : String} :
    ∀ {l : List (String × String)}, (l.map Prod.fst).Nodup → (p, s) ∈ l →
      lookupS p l = some s
  | [], _, hm => absurd hm (by simp)
  | (q, u) :: rest, hnd, hm => by
    rcases List.mem_cons.mp hm with heq | htail
    · obtain ⟨hq, hs⟩ := Prod.mk.injEq .. ▸ heq
      simp [lookupS, hq.symm, hs]
    · have hq : ¬ q = p := by
        intro hqp
        have : p ∈ rest.map Prod.fst := by
          exact List.mem_map.mpr ⟨(p, s), htail, rfl⟩
        rw [List.map_cons] at hnd
        exact (List.nodup_cons.mp hnd).1 (hqp ▸ this)
      have hnd' : (rest.map Prod.fst).Nodup := by
        rw [List.map_cons] at hnd
        exact (List.nodup_cons.mp hnd).2
      simp [lookupS, hq, lookupS_of_mem hnd' htail]

/-! Key-set lemmas for `summarize` and `mergeTables`. -/

theorem map_fst_summarize (rows : List RawRecord) :
    (summarize rows).map Prod.fst =
      List.insertionSort (fun a b => strLe a b = true) ((cleanRecords rows).map Prod.fst).dedup := by
  simp [summarize, List.map_map, Function.comp_def]

theorem mem_summarize_fst {rows : List RawRecord} {p : String} :
    p ∈ (summarize rows).map Prod.fst ↔ p ∈ (cleanRecords rows).map Prod.fst := by
  rw [map_fst_summarize]
  simp

theorem nodup_summarize_fst (rows : List RawRecord) :
    ((summarize rows).map Prod.fst).Nodup := by
  rw [map_fst_summarize]
  exact ((List.perm_insertionSort _ _).nodup_iff).mpr (List.nodup_dedup _)

theorem map_project_mergeTables (r1 r2 : List (String × String)) :
    (mergeTables r1 r2).map ConsolidatedRow.project =
      List.insertionSort (fun a b => strLe a b = true) ((r1.map Prod.fst ++ r2.map Prod.fst).dedup) := by
  simp [mergeTables, List.map_map, Function.comp_def]

theorem mem_mergeTables_project {r1 r2 : List (String × String)} {p : String} :
    p ∈ (mergeTables r1 r2).map ConsolidatedRow.project ↔
      p ∈ r1.map Prod.fst ∨ p ∈ r2.map Prod.fst := by
  rw [map_project_mergeTables]
  simp

theorem nodup_mergeTables_project (r1 r2 : List (String × String)) :
    ((mergeTables r1 r2).map ConsolidatedRow.project).Nodup := by
  rw [map_project_mergeTables]
  exact ((List.perm_insertionSort _ _).nodup_iff).mpr (List.nodup_dedup _)

theorem sorted_mergeTables_project (r1 r2 : List (String × String)) :
    List.Sorted (fun a b : String => a ≤ b)
      ((mergeTables r1 r2).map ConsolidatedRow.project) := by
  rw [map_project_mergeTables]
  have itrans : IsTrans String (fun a b => strLe a b = true) :=
    ⟨fun _ _ _ hab hbc => strLe_iff.mpr (le_trans (strLe_iff.mp hab) (strLe_iff.mp hbc))⟩
  have itot : IsTotal String (fun a b => strLe a b = true) :=
    ⟨fun a b => by
      rcases le_total a b with h | h
      · exact Or.inl (strLe_iff.mpr h)
      · exact Or.inr (strLe_iff.mpr h)⟩
  exact (List.sorted_insertionSort _ _).imp (fun h => strLe_iff.mp h)

theorem mergeTables_row_shape {r1 r2 : List (String × String)} {row : ConsolidatedRow}
    (h : row ∈ mergeTables r1 r2) :
    row.thisText = (lookupS row.project r1).getD "-" ∧
      row.nextText = (lookupS row.project r2).getD "-" := by
  simp only [mergeTables] at h
  obtain ⟨p, hp, hrow⟩ := List.mem_map.mp h
  cases hrow
  exact ⟨rfl, rfl⟩

/-! Inversion lemmas for the two processing branches. -/

theorem processExcel_table {grid : List (List (Option String))}
    {rows : List ConsolidatedRow} (h : processExcel grid = ProcessResult.table rows) :
    rows = mergeTables (summarize (excelThis grid)) (summarize (excelNext grid)) := by
  unfold processExcel at h
  cases hh : findHeaderExcel grid with
  | none => rw [hh] at h; exact absurd h (by simp)
  | some k =>
    rw [hh] at h
    simp only at h
    split at h
    · exact absurd h (by simp)
    · unfold excelThis excelNext
      rw [hh]
      exact (ProcessResult.table.injEq _ _ ▸ h).symm

theorem processPdf_table {pages : List (List (List (Option String)))}
    {rows : List ConsolidatedRow} (h : processPdf pages = ProcessResult.table rows) :
    rows = mergeTables (summarize (pdfThis pages)) (summarize (pdfNext pages)) := by
  unfold processPdf at h
  simp only at h
  split at h
  · exact absurd h (by simp)
  · exact (ProcessResult.table.injEq _ _ ▸ h).symm

/-! Character-preservation lemmas for the per-line canonicalization. -/

theorem substA_not_mem {c : Char} {pre rep : List Char} {sufs : List (List Char)}
    (hrep : c ∉ rep) :
    ∀ (s : List Char) (k : Nat), c ∉ s → c ∉ substA pre sufs rep k s := by
  intro s
  induction s with
  | nil => intro k _; simp [substA]
  | cons a cs ih =>
    intro k h
    have hcs : c ∉ cs := fun hm => h (List.mem_cons_of_mem a hm)
    have hca : c ≠ a := fun hm => h (hm ▸ List.mem_cons_self a cs)
    cases k with
    | succ n => simpa only [substA] using ih n hcs
    | zero =>
      simp only [substA]
      split
      · intro hm
        simp only [List.mem_append] at hm
        rcases hm with h1 | h1
        · exact hrep h1
        · exact ih _ hcs h1
      · intro hm
        rcases List.mem_cons.mp hm with h1 | h1
        · exact hca h1
        · exact ih 0 hcs h1

theorem not_mem_stripL {c : Char} {l : List Char} (h : c ∉ l) : c ∉ stripL l := by
  intro hm
  apply h
  unfold stripL at hm
  rw [List.mem_reverse] at hm
  have h2 := List.dropWhile_subset isWS hm
  rw [List.mem_reverse] at h2
  exact List.dropWhile_subset isWS h2

theorem not_mem_removeBul {c : Char} {l : List Char} (h : c ∉ l) : c ∉ removeBul l :=
  fun hm => h (List.mem_of_mem_filter hm)

theorem applyRules_not_mem {c : Char} {l : List Char}
    (h1 : c ∉ " 진행".data) (h2 : c ∉ " 완료".data) (h3 : c ∉ " 예정".data)
    (h4 : c ∉ " F/U".data) (h : c ∉ l) : c ∉ applyRules l := by
  simp only [applyRules, pySub]
  exact substA_not_mem h4 _ _ (substA_not_mem h4 _ _ (substA_not_mem h3 _ _
    (substA_not_mem h2 _ _ (substA_not_mem h1 _ _ h))))

theorem procLine_not_mem {c : Char} {x l : List Char}
    (h1 : c ∉ " 진행".data) (h2 : c ∉ " 완료".data) (h3 : c ∉ " 예정".data)
    (h4 : c ∉ " F/U".data) (hx : c ∉ x) (h : procLine x = some l) : c ∉ l := by
  simp only [procLine] at h
  split at h
  · exact absurd h (by simp)
  · have hl : applyRules (stripL (removeBul (stripL x))) = l := by
      injection h
    exact hl ▸ applyRules_not_mem h1 h2 h3 h4
      (not_mem_stripL (not_mem_removeBul (not_mem_stripL hx)))

theorem procLine_no_nl {x l : List Char} (hx : '\n' ∉ x) (h : procLine x = some l) :
    '\n' ∉ l :=
  procLine_not_mem (by decide) (by decide) (by decide) (by decide) hx h

/-! Lemmas about line splitting and joining. -/

theorem splitNL_ne_nil : ∀ l : List Char, splitNL l ≠ []
  | [] => by simp [splitNL]
  | c :: cs => by
    simp only [splitNL]
    split
    · simp
    · split
      · simp
      · simp

theorem mem_splitNL_no_nl : ∀ (l : List Char), ∀ p ∈ splitNL l, '\n' ∉ p
  | [], p, hp => by
    simp only [splitNL, List.mem_singleton] at hp
    simp [hp]
  | c :: cs, p, hp => by
    simp only [splitNL] at hp
    by_cases hc : c = '\n'
    · rw [if_pos hc] at hp
      rcases List.mem_cons.mp hp with h1 | h1
      · simp [h1]
      · exact mem_splitNL_no_nl cs p h1
    · rw [if_neg hc] at hp
      cases hsp : splitNL cs with
      | nil => exact absurd hsp (splitNL_ne_nil cs)
      | cons q qs =>
        rw [hsp] at hp
        rcases List.mem_cons.mp hp with h1 | h1
        · subst h1
          intro hm
          rcases List.mem_cons.mp hm with h2 | h2
          · exact hc h2.symm
          · exact mem_splitNL_no_nl cs q (hsp ▸ List.mem_cons_self q qs) h2
        · exact mem_splitNL_no_nl cs p (hsp ▸ List.mem_cons_of_mem q h1)

theorem splitNL_of_no_nl : ∀ (l : List Char), '\n' ∉ l → splitNL l = [l]
  | [], _ => rfl
  | c :: cs, h => by
    have hc : ¬ c = '\n' := fun hc => h (hc ▸ List.mem_cons_self c cs)
    have hcs : '\n' ∉ cs := fun hm => h (List.mem_cons_of_mem c hm)
    simp only [splitNL, if_neg hc, splitNL_of_no_nl cs hcs]

theorem splitNL_append : ∀ (l rest : List Char), '\n' ∉ l →
    splitNL (l ++ '\n' :: rest) = l :: splitNL rest
  | [], rest, _ => by simp [splitNL]
  | c :: cs, rest, h => by
    have hc : ¬ c = '\n' := fun hc => h (hc ▸ List.mem_cons_self c cs)
    have hcs : '\n' ∉ cs := fun hm => h (List.mem_cons_of_mem c hm)
    have ih := splitNL_append cs rest hcs
    simp only [List.cons_append, splitNL, if_neg hc, List.append_eq]
    rw [ih]

theorem splitNL_joinNL : ∀ (ls : List (List Char)), ls ≠ [] →
    (∀ x ∈ ls, '\n' ∉ x) → splitNL (joinNL ls) = ls
  | [], h, _ => absurd rfl h
  | [l], _, hnn => by
    simp only [joinNL]
    exact splitNL_of_no_nl l (hnn l (List.mem_singleton_self l))
  | l :: m :: ls, _, hnn => by
    have hl : '\n' ∉ l := hnn l (List.mem_cons_self l _)
    have hrest : ∀ x ∈ m :: ls, '\n' ∉ x := fun x hx => hnn x (List.mem_cons_of_mem l hx)
    simp only [joinNL]
    rw [splitNL_append l _ hl, splitNL_joinNL (m :: ls) (by simp) hrest]

/-! Structural lemmas about the dedup loop of `refine_text`. -/

theorem refineAux_no_nl : ∀ (ls seen : List (List Char)), (∀ y ∈ ls, '\n' ∉ y) →
    ∀ x ∈ refineAux ls seen, '\n' ∉ x
  | [], _, _, x, hx => absurd hx (by simp [refineAux])
  | y :: ys, seen, hy, x, hx => by
    have hys : ∀ z ∈ ys, '\n' ∉ z := fun z hz => hy z (List.mem_cons_of_mem y hz)
    cases hp : procLine y with
    | none =>
      rw [(by simp [refineAux, hp] :
        refineAux (y :: ys) seen = refineAux ys seen)] at hx
      exact refineAux_no_nl ys seen hys x hx
    | some l =>
      by_cases hseen : l ∈ seen
      · rw [(by simp [refineAux, hp, hseen] :
          refineAux (y :: ys) seen = refineAux ys seen)] at hx
        exact refineAux_no_nl ys seen hys x hx
      · rw [(by simp [refineAux, hp, hseen] :
          refineAux (y :: ys) seen = l :: refineAux ys (l :: seen))] at hx
        rcases List.mem_cons.mp hx with h1 | h1
        · exact h1 ▸ procLine_no_nl (hy y (List.mem_cons_self y ys)) hp
        · exact refineAux_no_nl ys (l :: seen) hys x h1

theorem refineAux_nodup_aux : ∀ (ls seen : List (List Char)),
    (refineAux ls seen).Nodup ∧ ∀ x ∈ refineAux ls seen, x ∉ seen
  | [], _ => by simp [refineAux]
  | y :: ys, seen => by
    cases hp : procLine y with
    | none =>
      rw [(by simp [refineAux, hp] :
        refineAux (y :: ys) seen = refineAux ys seen)]
      exact refineAux_nodup_aux ys seen
    | some l =>
      by_cases hseen : l ∈ seen
      · rw [(by simp [refineAux, hp, hseen] :
          refineAux (y :: ys) seen = refineAux ys seen)]
        exact refineAux_nodup_aux ys seen
      · rw [(by simp [refineAux, hp, hseen] :
          refineAux (y :: ys) seen = l :: refineAux ys (l :: seen))]
        obtain ⟨hnd, hfresh⟩ := refineAux_nodup_aux ys (l :: seen)
        refine ⟨List.nodup_cons.mpr ⟨?_, hnd⟩, ?_⟩
        · intro hmem
          exact hfresh l hmem (List.mem_cons_self l seen)
        · intro x hx
          rcases List.mem_cons.mp hx with h1 | h1
          · exact h1 ▸ hseen
          · exact fun hs => hfresh x h1 (List.mem_cons_of_mem l hs)

theorem refineAux_nodup (ls seen : List (List Char)) : (refineAux ls seen).Nodup :=
  (refineAux_nodup_aux ls seen).1

theorem refineAux_fixpoint : ∀ (ls seen : List (List Char)), ls.Nodup →
    (∀ l ∈ ls, procLine (bulletL l) = some l) → (∀ l ∈ ls, l ∉ seen) →
    refineAux (ls.map bulletL) seen = ls
  | [], _, _, _, _ => rfl
  | l :: ls, seen, hnd, hfix, hfresh => by
    rw [List.map_cons, (by
      simp [refineAux, hfix l (List.mem_cons_self l ls),
        hfresh l (List.mem_cons_self l ls)] :
      refineAux (bulletL l :: ls.map bulletL) seen =
        l :: refineAux (ls.map bulletL) (l :: seen))]
    obtain ⟨hl, hnd'⟩ := List.nodup_cons.mp hnd
    congr 1
    refine refineAux_fixpoint ls (l :: seen) hnd'
      (fun m hm => hfix m (List.mem_cons_of_mem l hm)) ?_
    intro m hm hmem
    rcases List.mem_cons.mp hmem with h1 | h1
    · exact hl (h1 ▸ hm)
    · exact hfresh m (List.mem_cons_of_mem l hm) h1

/-! Remaining helper lemmas. -/

theorem refine_text_eq (t : String) :
    refine_text t =
      if t = "" ∨ lowerL t.data = "nan".data ∨ t = "-" then "-"
      else if refineAux (splitNL t.data) [] = [] then "-"
      else String.mk (joinNL ((refineAux (splitNL t.data) []).map bulletL)) := rfl

theorem joinNL_bullet_head (a : List Char) (rest : List (List Char)) :
    ∃ w, joinNL (bulletL a :: rest) = '•' :: w := by
  cases rest with
  | nil => exact ⟨' ' :: a, rfl⟩
  | cons b bs => exact ⟨' ' :: (a ++ '\n' :: joinNL (b :: bs)), rfl⟩

theorem filterMap_middle {α β : Type} (f : α → Option β) (pre post : List α) (r : α) :
    List.filterMap f (pre ++ r :: post) =
      List.filterMap f pre ++ (f r).toList ++ List.filterMap f post := by
  rw [List.filterMap_append]
  cases h : f r with
  | none => simp [List.filterMap_cons, h]
  | some b => simp [List.filterMap_cons, h]

theorem mem_cleanRecords_fst {rows : List RawRecord} {p : String} :
    p ∈ (cleanRecords rows).map Prod.fst ↔
      ∃ r ∈ rows, stripS (pyStr r.project) = p ∧ sentinelProj p = false := by
  constructor
  · intro h
    obtain ⟨pt, hpt, hfst⟩ := List.mem_map.mp h
    obtain ⟨hmem, hflt⟩ := List.mem_filter.mp hpt
    obtain ⟨r, hr, hmap⟩ := List.mem_map.mp hmem
    subst hmap
    refine ⟨r, hr, hfst, ?_⟩
    rw [← hfst]
    simpa using hflt
  · rintro ⟨r, hr, hp, hsent⟩
    refine List.mem_map.mpr ⟨(stripS (pyStr r.project), r.task), ?_, hp⟩
    refine List.mem_filter.mpr ⟨List.mem_map.mpr ⟨r, hr, rfl⟩, ?_⟩
    simp only [hp, hsent, Bool.not_false]

theorem pdfThis_eq_nil : ∀ {pages : List (List (List (Option String)))},
    (∀ g ∈ pages, findHeaderPdf g = none) → pdfThis pages = []
  | [], _ => rfl
  | g :: gs, h => by
    have h1 : pdfPageThis g = [] := by
      simp [pdfPageThis, h g (List.mem_cons_self g gs)]
    simp [pdfThis, h1, pdfThis_eq_nil (fun g' hg' => h g' (List.mem_cons_of_mem g hg'))]

theorem pdfNext_eq_nil : ∀ {pages : List (List (List (Option String)))},
    (∀ g ∈ pages, findHeaderPdf g = none) → pdfNext pages = []
  | [], _ => rfl
  | g :: gs, h => by
    have h1 : pdfPageNext g = [] := by
      simp [pdfPageNext, h g (List.mem_cons_self g gs)]
    simp [pdfNext, h1, pdfNext_eq_nil (fun g' hg' => h g' (List.mem_cons_of_mem g hg'))]

/-! ## Claim theorems -/

/-- C9: a record whose task text is "작업 진행 중입니다" is refined by the Text
Refiner to the single bullet line "• 작업 진행". -/
theorem claim9_refine_scenario : refine_text "작업 진행 중입니다" = "• 작업 진행" := by
  decide

/-- C10: every output of `refine_text` is either exactly the placeholder dash
or a newline-join of lines each starting with the bullet prefix; and an empty
input, an input equal to "nan" case-insensitively, an input equal to the dash,
and an input with no surviving lines after stripping and dedup all yield the
dash. -/
theorem claim10_refine_shape (t : String) :
    (refine_text t = "-" ∨
      ∃ ls : List (List Char), ls ≠ [] ∧ (∀ l ∈ ls, ∃ w, l = '•' :: ' ' :: w) ∧
        refine_text t = String.mk (joinNL ls)) ∧
    ((t = "" ∨ lowerL t.data = "nan".data ∨ t = "-" ∨
        refineAux (splitNL t.data) [] = []) → refine_text t = "-") := by
  rw [refine_text_eq]
  by_cases hg : t = "" ∨ lowerL t.data = "nan".data ∨ t = "-"
  · rw [if_pos hg]
    exact ⟨Or.inl rfl, fun _ => rfl⟩
  · rw [if_neg hg]
    cases hrl : refineAux (splitNL t.data) [] with
    | nil =>
      rw [if_pos rfl]
      exact ⟨Or.inl rfl, fun _ => rfl⟩
    | cons a as =>
      rw [if_neg (List.cons_ne_nil a as)]
      constructor
      · refine Or.inr ⟨(a :: as).map bulletL, by simp, ?_, rfl⟩
        intro l hl
        obtain ⟨w, _, hw⟩ := List.mem_map.mp hl
        exact ⟨w, hw.symm⟩
      · intro hcase
        rcases hcase with h | h | h | h
        · exact absurd (Or.inl h) hg
        · exact absurd (Or.inr (Or.inl h)) hg
        · exact absurd (Or.inr (Or.inr h)) hg
        · exact absurd h (List.cons_ne_nil a as)

/-- C10 witness: the case-insensitive "nan" input yields the dash. -/
theorem claim10_witness : refine_text "NaN" = "-" :=
  (claim10_refine_shape "NaN").2 (Or.inr (Or.inl (by decide)))

/-- C8: a data row shorter than one period's column span yields no record for
that period (and raises no error), and extraction is per-row, so the other
period's extraction of the same row and all other rows are unaffected. -/
theorem claim8_short_rows (r : List (Option String)) :
    (r.length < 3 →
      extractThis r = none ∧ extractNext r = none ∧
        pdfExtractThis r = none ∧ pdfExtractNext r = none) ∧
    (r.length < 7 → extractNext r = none ∧ pdfExtractNext r = none) ∧
    (∀ pre post : List (List (Option String)),
      List.filterMap extractThis (pre ++ r :: post) =
        List.filterMap extractThis pre ++ (extractThis r).toList ++
          List.filterMap extractThis post ∧
      List.filterMap extractNext (pre ++ r :: post) =
        List.filterMap extractNext pre ++ (extractNext r).toList ++
          List.filterMap extractNext post ∧
      List.filterMap pdfExtractThis (pre ++ r :: post) =
        List.filterMap pdfExtractThis pre ++ (pdfExtractThis r).toList ++
          List.filterMap pdfExtractThis post ∧
      List.filterMap pdfExtractNext (pre ++ r :: post) =
        List.filterMap pdfExtractNext pre ++ (pdfExtractNext r).toList ++
          List.filterMap pdfExtractNext post) := by
  refine ⟨?_, ?_, ?_⟩
  · intro h
    refine ⟨?_, ?_, ?_, ?_⟩ <;>
      · simp only [extractThis, extractNext, pdfExtractThis, pdfExtractNext,
          ite_eq_right_iff]
        intro hc
        exact absurd hc.1 (by omega)
  · intro h
    refine ⟨?_, ?_⟩ <;>
      · simp only [extractNext, pdfExtractNext, ite_eq_right_iff]
        intro hc
        exact absurd hc.1 (by omega)
  · intro pre post
    exact ⟨filterMap_middle _ _ _ _, filterMap_middle _ _ _ _,
      filterMap_middle _ _ _ _, filterMap_middle _ _ _ _⟩

/-- C8 witness: a one-cell row is skipped by all four extractors, and a
surrounding batch is still processed row by row. -/
theorem claim8_witness :
    (extractThis [some "x"] = none ∧ extractNext [some "x"] = none ∧
      pdfExtractThis [some "x"] = none ∧ pdfExtractNext [some "x"] = none) ∧
    (extractNext [some "x"] = none ∧ pdfExtractNext [some "x"] = none) ∧
    List.filterMap extractThis ([[some "a", some "P", some "t"]] ++ [some "x"] :: []) =
      List.filterMap extractThis [[some "a", some "P", some "t"]] ++
        (extractThis [some "x"]).toList ++ List.filterMap extractThis [] := by
  obtain ⟨h1, h2, h3⟩ := claim8_short_rows [some "x"]
  exact ⟨h1 (by decide), h2 (by decide), (h3 [[some "a", some "P", some "t"]] []).1⟩

/-- C5 counterexample: record-level cleaning keeps both copies of a duplicated
(project, task) record, so the cleaned record list of one period can contain
two records sharing both project and task. -/
theorem claim5_counterexample :
    cleanRecords [⟨some "A", some "P", some "did X"⟩, ⟨some "A", some "P", some "did X"⟩] =
      [("P", some "did X"), ("P", some "did X")] ∧
    ¬ (cleanRecords [⟨some "A", some "P", some "did X"⟩,
        ⟨some "A", some "P", some "did X"⟩]).Nodup :=
  ⟨by decide, by decide⟩

/-- C5 (amended): the cleaning stage does not deduplicate (project, task)
records; deduplication happens per line inside the Text Refiner, whose
surviving line list is always duplicate-free, so two raw rows with the same
project and identical task text still collapse to a single bullet line in that
project's summary. -/
theorem claim5_line_dedup :
    (∀ lines : List (List Char), (refineAux lines []).Nodup) ∧
    summarize [⟨some "A", some "P", some "did X"⟩, ⟨some "A", some "P", some "did X"⟩] =
      [("P", "• did X")] :=
  ⟨fun lines => refineAux_nodup lines [], by decide⟩

/-- C4 counterexample: a record with a missing task survives cleaning and
produces a summary row (with the dash placeholder), and a record whose task is
the sentinel word "none" contributes the bullet "• none" — so records with
missing or sentinel tasks are not dropped. -/
theorem claim4_counterexample :
    summarize [⟨some "A", some "P", none⟩] = [("P", "-")] ∧
    summarize [⟨some "A", some "P", some "none"⟩] = [("P", "• none")] :=
  ⟨by decide, by decide⟩

/-- C4 (amended): cleaning only ever tests the project (and, on the PDF path,
mere truthiness of the task): the Excel extractor requires a present, non-blank
project cell; the PDF extractor requires present non-empty project and task
cells; and `summarize` keeps exactly the records whose stripped project does
not contain a marker substring case-insensitively.  Task text is never checked
against the sentinel list. -/
theorem claim4_cleaning_rules :
    (∀ (r : List (Option String)) (rec : RawRecord), extractThis r = some rec →
      ∃ s, rec.project = some s ∧ stripS s ≠ "") ∧
    (∀ (r : List (Option String)) (rec : RawRecord), pdfExtractThis r = some rec →
      (∃ s, rec.project = some s ∧ s ≠ "") ∧ (∃ s, rec.task = some s ∧ s ≠ "")) ∧
    (∀ (rows : List RawRecord) (p : String),
      p ∈ (summarize rows).map Prod.fst ↔
        ∃ r ∈ rows, stripS (pyStr r.project) = p ∧ sentinelProj p = false) := by
  refine ⟨?_, ?_, ?_⟩
  · intro r rec h
    unfold extractThis at h
    split at h
    · next hc =>
      injection h with h'
      cases hg : cellAt r 1 with
      | none =>
        rw [hg] at hc
        exact absurd hc.2 (by decide)
      | some s =>
        refine ⟨s, ?_, ?_⟩
        · rw [← h']
          exact hg
        · have hok := hc.2
          rw [hg] at hok
          simpa [cellOkE] using hok
    · exact absurd h (by simp)
  · intro r rec h
    unfold pdfExtractThis at h
    split at h
    · next hc =>
      injection h with h'
      obtain ⟨-, hp, ht⟩ := hc
      constructor
      · cases hg : cellAt r 1 with
        | none =>
          rw [hg] at hp
          exact absurd hp (by decide)
        | some s =>
          refine ⟨s, ?_, ?_⟩
          · rw [← h']
            exact hg
          · have := hp
            rw [hg] at this
            simpa [cellTruthy] using this
      · cases hg : cellAt r 2 with
        | none =>
          rw [hg] at ht
          exact absurd ht (by decide)
        | some s =>
          refine ⟨s, ?_, ?_⟩
          · rw [← h']
            exact hg
          · have := ht
            rw [hg] at this
            simpa [cellTruthy] using this
    · exact absurd h (by simp)
  · intro rows p
    exact mem_summarize_fst.trans mem_cleanRecords_fst

/-- C4 witness: a fully valid record passes both extractors and appears in the
summary key set. -/
theorem claim4_witness :
    (∃ s, (RawRecord.mk (some "a") (some "P") (some "t")).project = some s ∧
      stripS s ≠ "") ∧
    ((∃ s, (RawRecord.mk (some "a") (some "P") (some "t")).project = some s ∧ s ≠ "") ∧
     (∃ s, (RawRecord.mk (some "a") (some "P") (some "t")).task = some s ∧ s ≠ "")) ∧
    ("P" ∈ (summarize [RawRecord.mk (some "a") (some "P") (some "t")]).map Prod.fst ↔
      ∃ r ∈ [RawRecord.mk (some "a") (some "P") (some "t")],
        stripS (pyStr r.project) = "P" ∧ sentinelProj "P" = false) :=
  ⟨claim4_cleaning_rules.1 [some "a", some "P", some "t"] _ (by decide),
   claim4_cleaning_rules.2.1 [some "a", some "P", some "t"] _ (by decide),
   claim4_cleaning_rules.2.2 [RawRecord.mk (some "a") (some "P") (some "t")] "P"⟩

/-- C1: whenever processing returns a table, its project column is
duplicate-free and its project set is exactly the union of the project sets
surviving cleaning in the two periods' record lists (both branches). -/
theorem claim1_project_union :
    (∀ (grid : List (List (Option String))) (rows : List ConsolidatedRow),
      processExcel grid = ProcessResult.table rows →
        (rows.map ConsolidatedRow.project).Nodup ∧
        ∀ p, p ∈ rows.map ConsolidatedRow.project ↔
          (p ∈ (cleanRecords (excelThis grid)).map Prod.fst ∨
           p ∈ (cleanRecords (excelNext grid)).map Prod.fst)) ∧
    (∀ (pages : List (List (List (Option String)))) (rows : List ConsolidatedRow),
      processPdf pages = ProcessResult.table rows →
        (rows.map ConsolidatedRow.project).Nodup ∧
        ∀ p, p ∈ rows.map ConsolidatedRow.project ↔
          (p ∈ (cleanRecords (pdfThis pages)).map Prod.fst ∨
           p ∈ (cleanRecords (pdfNext pages)).map Prod.fst)) := by
  constructor
  · intro grid rows h
    rw [processExcel_table h]
    exact ⟨nodup_mergeTables_project _ _, fun p =>
      mem_mergeTables_project.trans (or_congr mem_summarize_fst mem_summarize_fst)⟩
  · intro pages rows h
    rw [processPdf_table h]
    exact ⟨nodup_mergeTables_project _ _, fun p =>
      mem_mergeTables_project.trans (or_congr mem_summarize_fst mem_summarize_fst)⟩

/-- C1 witness: a one-record Excel grid produces a one-row table whose project
set matches the surviving projects. -/
theorem claim1_witness :
    (([⟨"P1", "• did X", "-"⟩] : List ConsolidatedRow).map ConsolidatedRow.project).Nodup ∧
    ∀ p, p ∈ ([⟨"P1", "• did X", "-"⟩] : List ConsolidatedRow).map ConsolidatedRow.project ↔
      (p ∈ (cleanRecords (excelThis [[some "팀원", some "프로젝트", some "내용"],
            [some "A", some "P1", some "did X"]])).map Prod.fst ∨
       p ∈ (cleanRecords (excelNext [[some "팀원", some "프로젝트", some "내용"],
            [some "A", some "P1", some "did X"]])).map Prod.fst) :=
  claim1_project_union.1 _ _ (by decide)

/-- C2 counterexample: on a grid with a header row and no data, the code takes
the warning path and returns the no-result sentinel, not a table — in
particular not the empty table the claim promises. -/
theorem claim2_counterexample :
    processExcel [[some "팀원"]] = ProcessResult.emptyResult ∧
    processExcel [[some "팀원"]] ≠ ProcessResult.table [] :=
  ⟨by decide, by decide⟩

/-- C2 (amended): on either branch, when a header row is found but both
periods' summaries are empty after cleaning, the pipeline surfaces the
user-visible warning and returns the no-result sentinel (`None` in the code,
`emptyResult` here) instead of a table; it does not crash and does not take
the header-error path. -/
theorem claim2_empty_warning :
    (∀ (grid : List (List (Option String))) (h : Nat),
      findHeaderExcel grid = some h →
      summarize ((grid.drop (h + 1)).filterMap extractThis) = [] →
      summarize ((grid.drop (h + 1)).filterMap extractNext) = [] →
      processExcel grid = ProcessResult.emptyResult) ∧
    (∀ (pages : List (List (List (Option String))))
       (g : List (List (Option String))) (h : Nat),
      g ∈ pages → findHeaderPdf g = some h →
      summarize (pdfThis pages) = [] →
      summarize (pdfNext pages) = [] →
      processPdf pages = ProcessResult.emptyResult) := by
  constructor
  · intro grid h hh ht hn
    unfold processExcel
    rw [hh]
    simp only [ht, hn]
    rfl
  · intro pages g h _ _ ht hn
    unfold processPdf
    rw [ht, hn]
    rfl

/-- C2 witness: a header-only Excel grid and a PDF page whose header row is
found but whose only data row is too short both hit the warning path. -/
theorem claim2_witness :
    processExcel [[some "팀원"]] = ProcessResult.emptyResult ∧
    processPdf [[[some "프로젝트"], [some "x"]]] = ProcessResult.emptyResult :=
  ⟨claim2_empty_warning.1 [[some "팀원"]] 0 (by decide) (by decide) (by decide),
   claim2_empty_warning.2 [[[some "프로젝트"], [some "x"]]]
     [[some "프로젝트"], [some "x"]] 0 (by decide) (by decide) (by decide) (by decide)⟩

/-- C3 counterexample: a PDF input whose only page has no header-marker row
does not produce the header-not-found error; its pages are silently skipped
and the run ends in the empty-result warning instead. -/
theorem claim3_counterexample :
    findHeaderPdf [[some "x", some "y"]] = none ∧
    processPdf [[[some "x", some "y"]]] = ProcessResult.emptyResult ∧
    processPdf [[[some "x", some "y"]]] ≠ ProcessResult.headerNotFound :=
  ⟨by decide, by decide, by decide⟩

/-- C3 (amended): on the Excel branch a grid with no header-marker row fails
with the distinct header-not-found error; on the PDF branch pages without a
header are skipped, so a PDF whose pages all lack the marker ends in the
empty-result warning, never the header error. -/
theorem claim3_header_not_found :
    (∀ grid : List (List (Option String)), findHeaderExcel grid = none →
      processExcel grid = ProcessResult.headerNotFound) ∧
    (∀ pages : List (List (List (Option String))),
      (∀ g ∈ pages, findHeaderPdf g = none) →
        processPdf pages = ProcessResult.emptyResult) := by
  constructor
  · intro grid h
    unfold processExcel
    rw [h]
  · intro pages h
    unfold processPdf
    rw [pdfThis_eq_nil h, pdfNext_eq_nil h]
    rfl

/-- C3 witness: a marker-free Excel grid errors out; a marker-free PDF warns. -/
theorem claim3_witness :
    processExcel [[some "x"]] = ProcessResult.headerNotFound ∧
    processPdf [[[some "q"]]] = ProcessResult.emptyResult :=
  ⟨claim3_header_not_found.1 [[some "x"]] (by decide),
   claim3_header_not_found.2 [[[some "q"]]] (by
     intro g hg
     have hq := List.mem_singleton.mp hg
     subst hq
     decide)⟩

/-- C6 counterexample: refining "A 진행 중 중입니다" once gives
"• A 진행 중입니다", on which the first canonicalization rule fires again, so
a second refinement changes the text — `refine_text` is not idempotent. -/
theorem claim6_counterexample :
    refine_text (refine_text "A 진행 중 중입니다") ≠ refine_text "A 진행 중 중입니다" := by
  decide

/-- C6 (amended): `refine_text` is idempotent on every input whose refined
lines are each fixed by per-line re-canonicalization (stripping the added
bullet and re-applying the rewrite rules returns the line unchanged); without
that proviso a rule can fire again on refined text and idempotence fails. -/
theorem claim6_conditional_idempotent (t : String)
    (hfix : ∀ l ∈ refineAux (splitNL t.data) [], procLine (bulletL l) = some l) :
    refine_text (refine_text t) = refine_text t := by
  rw [refine_text_eq t]
  by_cases hg : t = "" ∨ lowerL t.data = "nan".data ∨ t = "-"
  · rw [if_pos hg]
    decide
  · rw [if_neg hg]
    cases hrl : refineAux (splitNL t.data) [] with
    | nil =>
      rw [if_pos rfl]
      decide
    | cons a as =>
      rw [if_neg (List.cons_ne_nil a as)]
      have hnd : (a :: as).Nodup := by
        rw [← hrl]
        exact refineAux_nodup (splitNL t.data) []
      have hfix2 : ∀ l ∈ a :: as, procLine (bulletL l) = some l := by
        intro l hl
        refine hfix l ?_
        rw [hrl]
        exact hl
      have hnn : ∀ l ∈ a :: as, '\n' ∉ l := by
        intro l hl
        refine refineAux_no_nl (splitNL t.data) [] (mem_splitNL_no_nl t.data) l ?_
        rw [hrl]
        exact hl
      obtain ⟨w, hw⟩ := joinNL_bullet_head a (as.map bulletL)
      have hdata : (String.mk (joinNL ((a :: as).map bulletL))).data = '•' :: w := by
        rw [List.map_cons]
        exact hw
      have hguardT : ¬ (String.mk (joinNL ((a :: as).map bulletL)) = "" ∨
          lowerL (String.mk (joinNL ((a :: as).map bulletL))).data = "nan".data ∨
          String.mk (joinNL ((a :: as).map bulletL)) = "-") := by
        rintro (h | h | h)
        · have hd := congrArg String.data h
          rw [hdata] at hd
          exact absurd hd (by simp)
        · rw [hdata] at h
          simp only [lowerL, List.map_cons] at h
          injection h with h1 _
          exact absurd h1 (by decide)
        · have hd := congrArg String.data h
          rw [hdata] at hd
          rw [(rfl : ("-").data = ['-'])] at hd
          injection hd with h1 _
          exact absurd h1 (by decide)
      rw [refine_text_eq, if_neg hguardT]
      have hsplit : splitNL (String.mk (joinNL ((a :: as).map bulletL))).data =
          (a :: as).map bulletL := by
        refine splitNL_joinNL _ (by simp) ?_
        intro x hx
        obtain ⟨l, hl, hxl⟩ := List.mem_map.mp hx
        subst hxl
        intro hm
        rcases List.mem_cons.mp hm with h1 | h1
        · exact absurd h1.symm (by decide)
        rcases List.mem_cons.mp h1 with h2 | h2
        · exact absurd h2.symm (by decide)
        · exact hnn l hl h2
      rw [hsplit, refineAux_fixpoint (a :: as) [] hnd hfix2
        (fun l _ => List.not_mem_nil l), if_neg (List.cons_ne_nil a as)]

/-- C6 witness: the scenario text "작업 진행 중입니다" satisfies the fixpoint
condition, so refining it twice equals refining it once. -/
theorem claim6_witness :
    (∀ l ∈ refineAux (splitNL ("작업 진행 중입니다").data) [],
      procLine (bulletL l) = some l) ∧
    refine_text (refine_text "작업 진행 중입니다") = refine_text "작업 진행 중입니다" :=
  ⟨by decide, claim6_conditional_idempotent "작업 진행 중입니다" (by decide)⟩

/-- C7: for unique-keyed per-period summaries the merged table is their full
outer join on project name: duplicate-free, sorted ascending by project under
the total string order, containing exactly the union of the key sets, with the
dash filled in for a period that lacks the project and the period's own text
kept when it has it. -/
theorem claim7_outer_join (res1 res2 : List (String × String))
    (h1 : (res1.map Prod.fst).Nodup) (h2 : (res2.map Prod.fst).Nodup) :
    ((mergeTables res1 res2).map ConsolidatedRow.project).Nodup ∧
    List.Sorted (fun a b : String => a ≤ b)
      ((mergeTables res1 res2).map ConsolidatedRow.project) ∧
    (∀ p, p ∈ (mergeTables res1 res2).map ConsolidatedRow.project ↔
      (p ∈ res1.map Prod.fst ∨ p ∈ res2.map Prod.fst)) ∧
    (∀ row ∈ mergeTables res1 res2,
      (row.project ∉ res1.map Prod.fst → row.thisText = "-") ∧
      (row.project ∉ res2.map Prod.fst → row.nextText = "-") ∧
      (∀ s, (row.project, s) ∈ res1 → row.thisText = s) ∧
      (∀ s, (row.project, s) ∈ res2 → row.nextText = s)) := by
  refine ⟨nodup_mergeTables_project _ _, sorted_mergeTables_project _ _,
    fun p => mem_mergeTables_project, ?_⟩
  intro row hrow
  obtain ⟨hthis, hnext⟩ := mergeTables_row_shape hrow
  refine ⟨?_, ?_, ?_, ?_⟩
  · intro hnot
    rw [hthis, lookupS_eq_none hnot]
    rfl
  · intro hnot
    rw [hnext, lookupS_eq_none hnot]
    rfl
  · intro v hv
    rw [hthis, lookupS_of_mem h1 hv]
    rfl
  · intro v hv
    rw [hnext, lookupS_of_mem h2 hv]
    rfl

/-- C7 witness: merging two disjoint one-project summaries. -/
theorem claim7_witness :
    ((mergeTables [("P1", "a")] [("P2", "b")]).map ConsolidatedRow.project).Nodup ∧
    List.Sorted (fun a b : String => a ≤ b)
      ((mergeTables [("P1", "a")] [("P2", "b")]).map ConsolidatedRow.project) ∧
    (∀ p, p ∈ (mergeTables [("P1", "a")] [("P2", "b")]).map ConsolidatedRow.project ↔
      (p ∈ [("P1", "a")].map Prod.fst ∨ p ∈ [("P2", "b")].map Prod.fst)) ∧
    (∀ row ∈ mergeTables [("P1", "a")] [("P2", "b")],
      (row.project ∉ [("P1", "a")].map Prod.fst → row.thisText = "-") ∧
      (row.project ∉ [("P2", "b")].map Prod.fst → row.nextText = "-") ∧
      (∀ s, (row.project, s) ∈ [("P1", "a")] → row.thisText = s) ∧
      (∀ s, (row.project, s) ∈ [("P2", "b")] → row.nextText = s)) :=
  claim7_outer_join [("P1", "a")] [("P2", "b")] (by decide) (by decide)

end WeeklyReport
